import Mathlib

/-!
Shallow embedding of `pair_align.py` and `tests/run.py` from the
makovalab-psu/common repository, with theorems checking the repository's
natural-language specification against the code.

Modelling conventions:
* A Python dict is an association list in insertion order: assigning to an
  existing key updates its binding in place, assigning a fresh key appends.
* Python floats are abstracted by a value type `A` together with the parse
  function `pf : String → Option A` standing for `float(s)`;
  `float` raising `ValueError` is `pf s = none`.
* A text file is its list of lines; whitespace is ASCII space/tab/CR/LF as in
  Lean's `Char.isWhitespace` (Python strips a slightly larger set, which no
  claim depends on).
* Raised exceptions are `Except.error` values.
-/

namespace Common

/-- Python dict assignment `d[k] = v`: update the binding of an existing key in
place, or append a fresh binding at the end (Python preserves insertion
order). -/
def dictInsert {κ : Type} [DecidableEq κ] {A : Type} (d : List (κ × A)) (k : κ) (v : A) :
    List (κ × A) :=
  if d.any (fun p => decide (p.1 = k)) then
    d.map (fun p => if p.1 = k then (k, v) else p)
  else
    d ++ [(k, v)]

/-- Python dict lookup `d[k]` (as an `Option`): the binding of the key. -/
def dictGet {κ : Type} [DecidableEq κ] {A : Type} (d : List (κ × A)) (k : κ) : Option A :=
  (d.find? (fun p => decide (p.1 = k))).map (fun p => p.2)

/-- Python `str.strip()` with no argument: drop leading and trailing
whitespace characters. -/
def pyStrip (s : String) : String :=
  String.mk (((s.data.dropWhile Char.isWhitespace).reverse.dropWhile
    Char.isWhitespace).reverse)

/-- The check `line.startswith('#')`: the first character is `#`. -/
def startsWithHash (s : String) : Bool :=
  match s.data with
  | [] => false
  | c :: _ => c = '#'

/-- The worker for `str.split()`: accumulate the current field (reversed) and
emit it at each whitespace run or at the end. -/
def splitWSAux : List Char → List Char → List String
  | [], acc => if acc.isEmpty then [] else [String.mk acc.reverse]
  | c :: cs, acc =>
    if c.isWhitespace then
      if acc.isEmpty then splitWSAux cs []
      else String.mk acc.reverse :: splitWSAux cs []
    else splitWSAux cs (c :: acc)

/-- Python `str.split()` with no argument: split on runs of whitespace,
producing no empty fields. -/
def pySplit (s : String) : List String :=
  splitWSAux s.data []

/-- The errors `substitution_matrix_loader` can raise: a `ValueError` from
`float(s)` on a malformed score string, a `ValueError` from unpacking
`y_base, *score_strs` on a line with no fields, and the explicit `ValueError`
for a score-count mismatch (which names the offending line number and reports
the row's score count and the header's base count). -/
inductive LoadError : Type where
  | floatValueError (lineNum : Nat)
  | unpackValueError (lineNum : Nat)
  | countMismatch (lineNum nScores nBases : Nat)
  deriving DecidableEq, Repr

/-- The score parsing `[float(s) for s in score_strs]`: left to right, the
first failing conversion raises (yields `none`). -/
def parseScores {A : Type} (pf : String → Option A) : List String → Option (List A)
  | [] => some []
  | s :: rest =>
    match pf s with
    | none => none
    | some v =>
      match parseScores pf rest with
      | none => none
      | some vs => some (v :: vs)

/-- The inner loop of `substitution_matrix_loader`:
`for x_base, score in zip(x_bases, scores): matrix[(x_base, y_base)] = score`. -/
def insertRow {A : Type} (matrix : List ((String × String) × A)) (xs : List String)
    (scores : List A) (yBase : String) : List ((String × String) × A) :=
  (xs.zip scores).foldl (fun m p => dictInsert m (p.1, yBase) p.2) matrix

/-- The line loop of `substitution_matrix_loader` over the remaining lines,
carrying the header (`x_bases`, `none` before the header has been seen), the
matrix built so far, and the 1-based number of the next line. -/
def loaderGo {A : Type} (pf : String → Option A) (xBases : Option (List String))
    (matrix : List ((String × String) × A)) (lineNum : Nat) :
    List String → Except LoadError (List ((String × String) × A))
  | [] => .ok matrix
  | lineRaw :: rest =>
    let line := pyStrip lineRaw
    if startsWithHash line then
      loaderGo pf xBases matrix (lineNum + 1) rest
    else
      match xBases with
      | none => loaderGo pf (some (pySplit line)) matrix (lineNum + 1) rest
      | some xs =>
        match pySplit line with
        | [] => .error (.unpackValueError lineNum)
        | _yBase :: scoreStrs =>
          match parseScores pf scoreStrs with
          | none => .error (.floatValueError lineNum)
          | some scores =>
            if scores.length ≠ xs.length then
              .error (.countMismatch lineNum scores.length xs.length)
            else
              loaderGo pf xBases (insertRow matrix xs scores _yBase) (lineNum + 1) rest

/-- Function `substitution_matrix_loader(matrix_path)` from `pair_align.py`, applied to
the lines of the file at `matrix_path`. -/
def substitution_matrix_loader {A : Type} (pf : String → Option A) (fileLines : List String) :
    Except LoadError (List ((String × String) × A)) :=
  loaderGo pf none [] 1 fileLines

/-- The non-comment lines of the file, stripped: what remains once every line
is stripped and every line starting with `#` is dropped. -/
def effLines (lines : List String) : List String :=
  (lines.map pyStrip).filter (fun l => !(startsWithHash l))

/-- The loader's error kinds with the line numbers erased, for comparing runs
that disagree only on line numbering. -/
inductive SpecErr : Type where
  | badFloat
  | badUnpack
  | mismatch (nScores nBases : Nat)
  deriving DecidableEq, Repr

/-- Erase the line numbers from a loader result, keeping the error kind and
the reported counts. -/
def eraseLineNums {A : Type} : Except LoadError A → Except SpecErr A
  | .ok v => .ok v
  | .error (.floatValueError _) => .error .badFloat
  | .error (.unpackValueError _) => .error .badUnpack
  | .error (.countMismatch _ a b) => .error (.mismatch a b)

/-- Modelled from the spec: process the data rows of the matrix format, each a
row symbol followed by one score per header column, building the mapping
`(column_symbol, row_symbol) -> score` and failing on a score-count mismatch.
Comment lines and the header line never reach this function. -/
def processRows {A : Type} (pf : String → Option A) (xs : List String)
    (matrix : List ((String × String) × A)) :
    List String → Except SpecErr (List ((String × String) × A))
  | [] => .ok matrix
  | l :: rest =>
    match pySplit l with
    | [] => .error .badUnpack
    | _yBase :: scoreStrs =>
      match parseScores pf scoreStrs with
      | none => .error .badFloat
      | some scores =>
        if scores.length ≠ xs.length then
          .error (.mismatch scores.length xs.length)
        else
          processRows pf xs (insertRow matrix xs scores _yBase) rest

/-- Modelled from the spec: the substitution-matrix text format. Comment lines
starting with `#` are ignored, the first remaining line is the ordered list of
column symbols, and every further line is a data row processed by
`processRows` starting from the empty mapping. -/
def spec_matrix_entries {A : Type} (pf : String → Option A) (lines : List String) :
    Except SpecErr (List ((String × String) × A)) :=
  match effLines lines with
  | [] => .ok []
  | hdr :: rows => processRows pf (pySplit hdr) [] rows

/-- The mid-loop generalization of `spec_matrix_entries`, matching `loaderGo`'s
state: before the header is seen the first remaining effective line becomes the
header. -/
def goSpec {A : Type} (pf : String → Option A) (xBases : Option (List String))
    (matrix : List ((String × String) × A)) (lines : List String) :
    Except SpecErr (List ((String × String) × A)) :=
  match xBases with
  | some xs => processRows pf xs matrix (effLines lines)
  | none =>
    match effLines lines with
    | [] => .ok matrix
    | hdr :: rows => processRows pf (pySplit hdr) matrix rows

/-- The entries contributed by one data row `r = (row_symbol, scores)`: one
entry `((column_symbol, row_symbol), score)` per column. -/
def rowBlock {A : Type} (xs : List String) (r : String × List A) :
    List ((String × String) × A) :=
  (xs.zip r.2).map (fun p => ((p.1, r.1), p.2))

/-! ## The Aligner wrapper (`pair_align.py`) -/

/-- The fields of the BioPython `PairwiseAligner` engine that
`Aligner.__init__` configures. Scores are modelled as rationals. -/
structure PairwiseAlignerState where
  mode : String
  open_gap_score : ℚ
  extend_gap_score : ℚ
  substitution_matrix : List ((String × String) × ℚ)

/-- Errors `Aligner.__init__` can raise: the explicit `RuntimeError` when
neither a `matrix` nor a `matrix_file` is given, or a `ValueError` propagated
from the fallback loader. -/
inductive InitError : Type where
  | runtimeError
  | loaderError (e : LoadError)
  deriving DecidableEq, Repr

/-- The engine configuration at the end of `Aligner.__init__`: the mode is the
scope, the gap penalties are negated ("penalties" are subtracted, the engine
adds its scores) and the open score additionally absorbs one extension, and
the substitution matrix is stored. -/
def configuredState (scope : String) (gap_open gap_extend : ℚ)
    (m : List ((String × String) × ℚ)) : PairwiseAlignerState :=
  { mode := scope
    open_gap_score := -(gap_open + gap_extend)
    extend_gap_score := -gap_extend
    substitution_matrix := m }

/-- Constructor `Aligner.__init__`. Here `subMatricesAvailable` is whether the import of
`Bio.Align.substitution_matrices` succeeded (it is `None` otherwise);
`nativeRead` models `substitution_matrices.read`; `readFile` returns the lines
of the file at a path; `matrix_file` is falsy when it is `None` or the empty
string. -/
def Aligner_init (subMatricesAvailable : Bool)
    (nativeRead : String → List ((String × String) × ℚ))
    (readFile : String → List String)
    (pf : String → Option ℚ)
    (scope : String) (gap_open gap_extend : ℚ)
    (matrix_file : Option String)
    (matrix : Option (List ((String × String) × ℚ))) :
    Except InitError PairwiseAlignerState :=
  match matrix with
  | some m => .ok (configuredState scope gap_open gap_extend m)
  | none =>
    match matrix_file with
    | none => .error .runtimeError
    | some path =>
      if path = "" then .error .runtimeError
      else if subMatricesAvailable then
        .ok (configuredState scope gap_open gap_extend (nativeRead path))
      else
        match substitution_matrix_loader pf (readFile path) with
        | .ok m => .ok (configuredState scope gap_open gap_extend m)
        | .error e => .error (.loaderError e)

/-- One alignment produced by the external engine: the lines of its printable
representation (`str(alignment).splitlines()`) and its score. -/
structure EngineAlignment where
  displayLines : List String
  score : ℚ

/-- The thin result wrapper `Alignment`: target line, match line, query line,
and the engine's score. -/
structure Alignment where
  target : String
  matches_str : String
  query : String
  score : ℚ

/-- Constructor `Alignment.__init__`: destructure the printable representation into
exactly three lines (a `ValueError` is raised otherwise, modelled as `none`)
and record the score. -/
def Alignment_init (a : EngineAlignment) : Option Alignment :=
  match a.displayLines with
  | [t, m, q] => some { target := t, matches_str := m, query := q, score := a.score }
  | _ => none

/-- Method `Alignment.__str__`: the three stored lines joined by newlines. -/
def Alignment_str (a : Alignment) : String :=
  String.intercalate ("\n") [a.target, a.matches_str, a.query]

/-- Method `Aligner.align`: run the engine; wrap the first alignment if there is one,
return `None` otherwise. The outer `Except` is the `ValueError` the wrapper
constructor can raise. -/
def Aligner_align (engine : String → String → List EngineAlignment)
    (seq1 seq2 : String) : Except Unit (Option Alignment) :=
  match engine seq1 seq2 with
  | [] => .ok none
  | a :: _ =>
    match Alignment_init a with
    | some w => .ok (some w)
    | none => .error ()

/-- Method `Aligner.aligns`: wrap every alignment the engine produced (the Python
generator, fully forced). -/
def Aligner_aligns (engine : String → String → List EngineAlignment)
    (seq1 seq2 : String) : Option (List Alignment) :=
  (engine seq1 seq2).mapM Alignment_init

/-! ## The test harness (`tests/run.py`) -/

/-- A module-level Python object as the harness sees it: whether it is a
`types.FunctionType` instance, plus an identity to tell objects apart. -/
structure PyObj where
  isFunction : Bool
  objId : Nat
  deriving DecidableEq, Repr

/-- Function `get_objects_diff(objects_before, objects_after)` with the default
`object_type=types.FunctionType`: the entries of `objects_after` whose name is
not a key of `objects_before` and whose object is a function. -/
def get_objects_diff (objects_before objects_after : List (String × PyObj)) :
    List (String × PyObj) :=
  objects_after.filter
    (fun p => !(objects_before.any (fun q => decide (q.1 = p.1))) && p.2.isFunction)

/-- Function `add_dicts(*dicts)`: merge dicts left to right into a fresh dict, later
bindings overwriting earlier ones. -/
def add_dicts {κ : Type} [DecidableEq κ] {A : Type} (dicts : List (List (κ × A))) :
    List (κ × A) :=
  dicts.foldl (fun combined d => d.foldl (fun c p => dictInsert c p.1 p.2) combined) []

/-- The five test dicts `main` builds. -/
structure Suites where
  meta_tests : List (String × PyObj)
  active_tests : List (String × PyObj)
  inactive_tests : List (String × PyObj)
  simple_tests : List (String × PyObj)
  all_tests : List (String × PyObj)

/-- The suite-construction part of `main` in `tests/run.py`: the marker
snapshots are `GlobalsInitial`, `GlobalsAfterMeta`, `GlobalsAfterActive` and
`GlobalsAfterInactive`; the three lambdas stored under `all`, `active` and
`inactive` are the given objects. -/
def build_suites (gInit gMeta gActive gInactive : List (String × PyObj))
    (allFn activeFn inactiveFn : PyObj) : Suites :=
  let meta0 := get_objects_diff gInit gMeta
  let meta1 := dictInsert meta0 ("all") allFn
  let meta2 := dictInsert meta1 ("active") activeFn
  let meta_tests := dictInsert meta2 ("inactive") inactiveFn
  let active_tests := get_objects_diff gMeta gActive
  let inactive_tests := get_objects_diff gActive gInactive
  let simple_tests := add_dicts [active_tests, inactive_tests]
  let all_tests := add_dicts [meta_tests, simple_tests]
  { meta_tests := meta_tests
    active_tests := active_tests
    inactive_tests := inactive_tests
    simple_tests := simple_tests
    all_tests := all_tests }

/-- What the dispatch part of `main` does after the suites are built. -/
inductive MainOutcome : Type where
  | listedTests
  | failedUnknown (unknown : List String)
  | ranTests (executed : List String)
  deriving DecidableEq, Repr

/-- The dispatch part of `main`: with no requested tests, list them and return
1; otherwise collect the unrecognized names and `fail` if there are any,
running every requested test in order only when there are none. -/
def main_dispatch (all_tests : List (String × PyObj)) (testArgs : List String) : MainOutcome :=
  if testArgs.isEmpty then .listedTests
  else
    let unknown := testArgs.filter (fun t => !(all_tests.any (fun p => decide (p.1 = t))))
    if unknown.isEmpty then .ranTests testArgs else .failedUnknown unknown

/-- The test functions an outcome of `main` invoked: only `ranTests` runs any. -/
def executedTests : MainOutcome → List String
  | .ranTests l => l
  | _ => []

/-! ## Theorems -/

/-- Every successful `Aligner.__init__` produces the configured state for some
matrix. -/
theorem Aligner_init_ok_eq {subAvail : Bool} {nativeRead readFile pf scope}
    {gap_open gap_extend : ℚ} {matrix_file matrix} {st : PairwiseAlignerState}
    (h : Aligner_init subAvail nativeRead readFile pf scope gap_open gap_extend
      matrix_file matrix = .ok st) :
    ∃ m, st = configuredState scope gap_open gap_extend m := by
  unfold Aligner_init at h
  split at h
  · exact ⟨_, (Except.ok.inj h).symm⟩
  · split at h
    · exact absurd h (by simp)
    · split at h
      · exact absurd h (by simp)
      · split at h
        · exact ⟨_, (Except.ok.inj h).symm⟩
        · split at h
          · exact ⟨_, (Except.ok.inj h).symm⟩
          · exact absurd h (by simp)

/-- C1: for every non-negative `gap_open` and `gap_extend` penalty passed to the
`Aligner` constructor, the engine's `open_gap_score` is set to
`-(gap_open + gap_extend)` and its `extend_gap_score` to `-gap_extend`
(whenever construction succeeds, regardless of how the matrix was obtained). -/
theorem C1_gap_score_translation (subAvail : Bool)
    (nativeRead : String → List ((String × String) × ℚ))
    (readFile : String → List String) (pf : String → Option ℚ) (scope : String)
    (gap_open gap_extend : ℚ) (matrix_file : Option String)
    (matrix : Option (List ((String × String) × ℚ))) (st : PairwiseAlignerState)
    (hopen : 0 ≤ gap_open) (hextend : 0 ≤ gap_extend)
    (h : Aligner_init subAvail nativeRead readFile pf scope gap_open gap_extend
      matrix_file matrix = .ok st) :
    st.open_gap_score = -(gap_open + gap_extend) ∧
      st.extend_gap_score = -gap_extend := by
  obtain ⟨m, rfl⟩ := Aligner_init_ok_eq h
  exact ⟨rfl, rfl⟩

/-- C1 witness: a concrete successful construction with `gap_open = 0`,
`gap_extend = 5/2` (the script defaults). -/
theorem C1_gap_score_translation_witness :
    Aligner_init true (fun _ => []) (fun _ => []) (fun _ => none) ("local") 0 (5/2)
      (some ("sub-matrix.txt")) none =
      .ok (configuredState ("local") 0 (5/2) []) ∧
    (configuredState ("local") 0 (5/2) ([] : List ((String × String) × ℚ))).open_gap_score
      = -(0 + 5/2) ∧
    (configuredState ("local") 0 (5/2) ([] : List ((String × String) × ℚ))).extend_gap_score
      = -(5/2 : ℚ) := by
  refine ⟨rfl, ?_⟩
  exact C1_gap_score_translation true (fun _ => []) (fun _ => []) (fun _ => none) ("local")
    0 (5/2) (some ("sub-matrix.txt")) none (configuredState ("local") 0 (5/2) [])
    (by norm_num) (by norm_num) rfl

/-- C9: `Aligner.__init__` raises its `RuntimeError` exactly when no matrix
object is given and `matrix_file` is falsy (`None` or the empty string). -/
theorem C9_runtime_error_iff (subAvail : Bool)
    (nativeRead : String → List ((String × String) × ℚ))
    (readFile : String → List String) (pf : String → Option ℚ) (scope : String)
    (gap_open gap_extend : ℚ) (matrix_file : Option String)
    (matrix : Option (List ((String × String) × ℚ))) :
    Aligner_init subAvail nativeRead readFile pf scope gap_open gap_extend
        matrix_file matrix = .error .runtimeError ↔
      matrix = none ∧ (matrix_file = none ∨ matrix_file = some ("")) := by
  cases matrix with
  | some m => simp [Aligner_init]
  | none =>
    cases matrix_file with
    | none => simp [Aligner_init]
    | some path =>
      simp only [Aligner_init]
      by_cases hp : path = ""
      · simp [hp]
      · rw [if_neg hp]
        cases subAvail with
        | true => simp [hp]
        | false =>
          cases hload : substitution_matrix_loader pf (readFile path) with
          | ok m => simp [hp]
          | error e => simp [hp]

/-- C6: when no explicit matrix object is passed and `matrix_file` is truthy,
the constructor uses the hand-written fallback parser
`substitution_matrix_loader` exactly when `Bio.Align.substitution_matrices` is
unavailable, and the native `substitution_matrices.read` otherwise. -/
theorem C6_fallback_loader_choice (subAvail : Bool)
    (nativeRead : String → List ((String × String) × ℚ))
    (readFile : String → List String) (pf : String → Option ℚ) (scope : String)
    (gap_open gap_extend : ℚ) (path : String) (hpath : path ≠ "") :
    (subAvail = false →
      Aligner_init subAvail nativeRead readFile pf scope gap_open gap_extend
          (some path) none =
        match substitution_matrix_loader pf (readFile path) with
        | .ok m => .ok (configuredState scope gap_open gap_extend m)
        | .error e => .error (.loaderError e)) ∧
    (subAvail = true →
      Aligner_init subAvail nativeRead readFile pf scope gap_open gap_extend
          (some path) none =
        .ok (configuredState scope gap_open gap_extend (nativeRead path))) := by
  constructor
  · rintro rfl
    simp only [Aligner_init, if_neg hpath]
    rfl
  · rintro rfl
    simp only [Aligner_init, if_neg hpath]
    rfl

/-- C6 witness: with the native reader unavailable, a concrete construction
goes through `substitution_matrix_loader` on the file's lines; with it
available, the native result is stored. -/
theorem C6_fallback_loader_choice_witness :
    ((false : Bool) = false →
      Aligner_init false (fun _ => []) (fun _ => ["A", "A 1"]) (fun s => (s.toNat? : Option ℕ).map (fun n => (n : ℚ)))
          ("local") 0 (5/2) (some ("m.txt")) none =
        match substitution_matrix_loader (fun s => (s.toNat? : Option ℕ).map (fun n => (n : ℚ)))
            ((fun (_ : String) => ["A", "A 1"]) ("m.txt")) with
        | .ok m => .ok (configuredState ("local") 0 (5/2) m)
        | .error e => .error (.loaderError e)) ∧
    ((false : Bool) = true →
      Aligner_init false (fun _ => []) (fun _ => ["A", "A 1"]) (fun s => (s.toNat? : Option ℕ).map (fun n => (n : ℚ)))
          ("local") 0 (5/2) (some ("m.txt")) none =
        .ok (configuredState ("local") 0 (5/2) ((fun _ => []) ("m.txt")))) :=
  C6_fallback_loader_choice false (fun _ => []) (fun _ => ["A", "A 1"])
    (fun s => (s.toNat? : Option ℕ).map (fun n => (n : ℚ))) ("local") 0 (5/2) ("m.txt")
    (by decide)

/-- Wrapping a list of well-displayed engine alignments succeeds and wraps each
one (score preserved, printable lines preserved). -/
theorem mapM_Alignment_init (l : List EngineAlignment)
    (hdisp : ∀ a ∈ l, ∃ t m q, a.displayLines = [t, m, q]) :
    ∃ ws, l.mapM Alignment_init = some ws ∧
      List.Forall₂ (fun (a : EngineAlignment) (w : Alignment) =>
        w.score = a.score ∧ [w.target, w.matches_str, w.query] = a.displayLines) l ws := by
  induction l with
  | nil => exact ⟨[], rfl, List.Forall₂.nil⟩
  | cons a l ih =>
    obtain ⟨t, m, q, hd⟩ := hdisp a (List.mem_cons_self a l)
    obtain ⟨ws, hws, hrel⟩ := ih (fun b hb => hdisp b (List.mem_cons_of_mem _ hb))
    refine ⟨{ target := t, matches_str := m, query := q, score := a.score } :: ws, ?_, ?_⟩
    · simp only [List.mapM_cons, Alignment_init, hd, hws, Option.bind_eq_bind,
        Option.bind_some, Option.bind_none]
      rfl
    · exact List.Forall₂.cons ⟨rfl, hd.symm⟩ hrel

/-- C8 counterexample: with an engine that produces no alignments, `align`
returns `None` rather than a result wrapper, so `align` does not return a
wrapper for every call. -/
theorem C8_align_none_counterexample :
    Aligner_align (fun _ _ => []) ("GATTACA") ("GCATGCU") = .ok none := rfl

/-- C8 amended: when every engine alignment prints as three lines, `aligns`
wraps each engine result in an `Alignment` (score and printable lines
preserved), and `align` wraps the first engine result when there is one and
returns `None` when the engine produces none. -/
theorem C8_thin_wrapper_amended (engine : String → String → List EngineAlignment)
    (seq1 seq2 : String)
    (hdisp : ∀ a ∈ engine seq1 seq2, ∃ t m q, a.displayLines = [t, m, q]) :
    (engine seq1 seq2 = [] → Aligner_align engine seq1 seq2 = .ok none) ∧
    (∀ a rest, engine seq1 seq2 = a :: rest →
      ∃ w, Aligner_align engine seq1 seq2 = .ok (some w) ∧
        w.score = a.score ∧ [w.target, w.matches_str, w.query] = a.displayLines) ∧
    (∃ ws, Aligner_aligns engine seq1 seq2 = some ws ∧
      List.Forall₂ (fun (a : EngineAlignment) (w : Alignment) =>
        w.score = a.score ∧ [w.target, w.matches_str, w.query] = a.displayLines)
        (engine seq1 seq2) ws) := by
  refine ⟨?_, ?_, ?_⟩
  · intro h
    simp [Aligner_align, h]
  · intro a rest h
    obtain ⟨t, m, q, hd⟩ := hdisp a (h ▸ List.mem_cons_self a rest)
    refine ⟨{ target := t, matches_str := m, query := q, score := a.score }, ?_, rfl, hd.symm⟩
    simp [Aligner_align, h, Alignment_init, hd]
  · exact mapM_Alignment_init _ hdisp

/-- C8 witness: an engine with one three-line alignment of score 5. -/
theorem C8_thin_wrapper_amended_witness :
    (∀ a ∈ (fun (_ _ : String) => [EngineAlignment.mk ["T", "|", "Q"] 5]) ("AC") ("AG"),
      ∃ t m q, a.displayLines = [t, m, q]) ∧
    ((∀ a rest,
        (fun (_ _ : String) => [EngineAlignment.mk ["T", "|", "Q"] 5]) ("AC") ("AG") = a :: rest →
      ∃ w, Aligner_align (fun _ _ => [EngineAlignment.mk ["T", "|", "Q"] 5]) ("AC") ("AG") =
          .ok (some w) ∧
        w.score = a.score ∧ [w.target, w.matches_str, w.query] = a.displayLines)) := by
  have hdisp : ∀ a ∈ (fun (_ _ : String) => [EngineAlignment.mk ["T", "|", "Q"] 5]) ("AC") ("AG"),
      ∃ t m q, a.displayLines = [t, m, q] := by
    intro a ha
    rw [List.mem_singleton] at ha
    exact ⟨"T", "|", "Q", by rw [ha]⟩
  exact ⟨hdisp,
    (C8_thin_wrapper_amended (fun _ _ => [EngineAlignment.mk ["T", "|", "Q"] 5])
      "AC" "AG" hdisp).2.1⟩

/-- C10: if any requested test name is not registered, `main` fails before
invoking any test: the unrecognized names are reported and no test function is
executed. -/
theorem C10_unknown_test_blocks_all (all_tests : List (String × PyObj))
    (testArgs : List String) (t : String) (ht : t ∈ testArgs)
    (hunknown : t ∉ all_tests.map Prod.fst) :
    (∃ unknown, main_dispatch all_tests testArgs = .failedUnknown unknown ∧ t ∈ unknown) ∧
      executedTests (main_dispatch all_tests testArgs) = [] := by
  have hne : testArgs ≠ [] := List.ne_nil_of_mem ht
  have hpred : (all_tests.any (fun p => decide (p.1 = t))) = false := by
    rw [List.any_eq_false]
    intro p hp
    simp only [decide_eq_true_eq]
    intro hpt
    exact hunknown (hpt ▸ List.mem_map_of_mem Prod.fst hp)
  have htu : t ∈ testArgs.filter (fun t => !(all_tests.any (fun p => decide (p.1 = t)))) := by
    rw [List.mem_filter]
    exact ⟨ht, by rw [hpred]; rfl⟩
  have hfne : (testArgs.filter (fun t => !(all_tests.any (fun p => decide (p.1 = t))))).isEmpty
      = false := by
    rw [List.isEmpty_eq_false_iff_exists_mem]
    exact ⟨t, htu⟩
  have hout : main_dispatch all_tests testArgs =
      .failedUnknown (testArgs.filter (fun t => !(all_tests.any (fun p => decide (p.1 = t))))) := by
    unfold main_dispatch
    rw [if_neg (by simpa using hne)]
    simp only [hfne]
    rfl
  exact ⟨⟨_, hout, htu⟩, by rw [hout]; rfl⟩

/-- C10 witness: requesting the unregistered name `bogus` when only `getreads`
is registered. -/
theorem C10_unknown_test_blocks_all_witness :
    ("bogus" ∈ ["bogus"] ∧
      "bogus" ∉ ([("getreads", PyObj.mk true 0)] : List (String × PyObj)).map Prod.fst) ∧
    ((∃ unknown, main_dispatch [("getreads", PyObj.mk true 0)] ["bogus"] =
        .failedUnknown unknown ∧ "bogus" ∈ unknown) ∧
      executedTests (main_dispatch [("getreads", PyObj.mk true 0)] ["bogus"]) = []) :=
  ⟨⟨by decide, by decide⟩,
    C10_unknown_test_blocks_all [("getreads", PyObj.mk true 0)] ["bogus"] ("bogus")
      (by decide) (by decide)⟩

/-- Keys after a Python dict assignment: the old keys, plus the assigned key. -/
theorem dictInsert_mem_keys {κ : Type} [DecidableEq κ] {A : Type} (d : List (κ × A))
    (k : κ) (v : A) (n : κ) :
    n ∈ (dictInsert d k v).map Prod.fst ↔ n ∈ d.map Prod.fst ∨ n = k := by
  unfold dictInsert
  by_cases hc : d.any (fun p => decide (p.1 = k)) = true
  · rw [if_pos hc]
    have hkeys : (d.map (fun p => if p.1 = k then (k, v) else p)).map Prod.fst
        = d.map Prod.fst := by
      rw [List.map_map]
      refine List.map_congr_left ?_
      intro p _
      by_cases hp : p.1 = k
      · simp [hp]
      · simp [hp]
    rw [hkeys]
    constructor
    · exact Or.inl
    · rintro (h | rfl)
      · exact h
      · obtain ⟨p, hp, hpk⟩ := List.any_eq_true.mp hc
        rw [decide_eq_true_eq] at hpk
        exact hpk ▸ List.mem_map_of_mem Prod.fst hp
  · rw [if_neg hc, List.map_append]
    simp [List.mem_append]

/-- C7 counterexample: with every marker snapshot empty the diff between the
first two markers is empty, yet the meta suite still registers the built-in
entry `all`; so the meta suite is not exactly the set of module-level function
names newly bound between its marker snapshots. -/
theorem C7_meta_suite_counterexample :
    get_objects_diff ([] : List (String × PyObj)) [] = [] ∧
    ("all", PyObj.mk true 10) ∈
      (build_suites [] [] [] [] (PyObj.mk true 10) (PyObj.mk true 11)
        (PyObj.mk true 12)).meta_tests := by
  exact ⟨rfl, by decide⟩

/-- C7 amended: `get_objects_diff(before, after)` returns precisely the entries
of `after` whose name is not in `before` and whose object is a function; the
active and inactive suites are exactly these diffs of consecutive markers,
while the meta suite is the diff of the first two markers plus the three
built-in entries `all`, `active` and `inactive`. -/
theorem C7_suite_registration_amended (gInit gMeta gActive gInactive : List (String × PyObj))
    (allFn activeFn inactiveFn : PyObj) :
    (∀ before after : List (String × PyObj), ∀ p : String × PyObj,
      p ∈ get_objects_diff before after ↔
        p ∈ after ∧ p.1 ∉ before.map Prod.fst ∧ p.2.isFunction = true) ∧
    (build_suites gInit gMeta gActive gInactive allFn activeFn inactiveFn).active_tests
      = get_objects_diff gMeta gActive ∧
    (build_suites gInit gMeta gActive gInactive allFn activeFn inactiveFn).inactive_tests
      = get_objects_diff gActive gInactive ∧
    (∀ n : String,
      n ∈ (build_suites gInit gMeta gActive gInactive allFn activeFn
          inactiveFn).meta_tests.map Prod.fst ↔
        n ∈ (get_objects_diff gInit gMeta).map Prod.fst ∨
          n = "all" ∨ n = "active" ∨ n = "inactive") := by
  refine ⟨?_, rfl, rfl, ?_⟩
  · intro before after p
    rw [get_objects_diff, List.mem_filter]
    simp only [Bool.and_eq_true, Bool.not_eq_true', List.any_eq_false, decide_eq_true_eq]
    constructor
    · rintro ⟨h1, h2, h3⟩
      refine ⟨h1, ?_, h3⟩
      intro hmem
      obtain ⟨q, hq, hq1⟩ := List.mem_map.mp hmem
      exact h2 q hq hq1
    · rintro ⟨h1, h2, h3⟩
      refine ⟨h1, ?_, h3⟩
      intro q hq heq
      exact h2 (heq ▸ List.mem_map_of_mem Prod.fst hq)
  · intro n
    show n ∈ (dictInsert (dictInsert (dictInsert (get_objects_diff gInit gMeta) ("all") allFn)
      ("active") activeFn) ("inactive") inactiveFn).map Prod.fst ↔ _
    rw [dictInsert_mem_keys, dictInsert_mem_keys, dictInsert_mem_keys]
    tauto

/-- One step of `effLines`: a comment line disappears, any other line remains
stripped. -/
theorem effLines_cons (l : String) (rest : List String) :
    effLines (l :: rest) =
      if startsWithHash (pyStrip l) = true then effLines rest
      else pyStrip l :: effLines rest := by
  by_cases h : startsWithHash (pyStrip l) = true
  · rw [if_pos h]
    simp [effLines, List.filter_cons, h]
  · rw [if_neg h]
    rw [Bool.not_eq_true] at h
    simp [effLines, List.filter_cons, h]

/-- Parsing the scores of a row preserves the count of fields. -/
theorem parseScores_length {A : Type} (pf : String → Option A) :
    ∀ (l : List String) (vs : List A), parseScores pf l = some vs → vs.length = l.length := by
  intro l
  induction l with
  | nil =>
    intro vs h
    rw [parseScores] at h
    cases h
    rfl
  | cons s rest ih =>
    intro vs h
    rw [parseScores] at h
    cases hs : pf s with
    | none => rw [hs] at h; exact absurd h (by simp)
    | some v =>
      rw [hs] at h
      cases hr : parseScores pf rest with
      | none => rw [hr] at h; exact absurd h (by simp)
      | some ws =>
        rw [hr] at h
        cases h
        simp [ih ws hr]

/-- Loader loop on a comment line: skip it, advancing the line number. -/
theorem loaderGo_cons_comment {A : Type} (pf : String → Option A) (xb : Option (List String))
    (matrix : List ((String × String) × A)) (n : Nat) (l : String) (rest : List String)
    (hc : startsWithHash (pyStrip l) = true) :
    loaderGo pf xb matrix n (l :: rest) = loaderGo pf xb matrix (n + 1) rest := by
  rw [loaderGo.eq_def]
  simp only [hc, if_true]

/-- Loader loop on the header line: its fields become the column symbols. -/
theorem loaderGo_cons_header {A : Type} (pf : String → Option A)
    (matrix : List ((String × String) × A)) (n : Nat) (l : String) (rest : List String)
    (hc : startsWithHash (pyStrip l) = false) :
    loaderGo pf none matrix n (l :: rest)
      = loaderGo pf (some (pySplit (pyStrip l))) matrix (n + 1) rest := by
  rw [loaderGo.eq_def]
  simp only [hc, Bool.false_eq_true, if_false]

/-- Loader loop on a data line with no fields: the unpacking `ValueError`. -/
theorem loaderGo_cons_unpack {A : Type} (pf : String → Option A) (xs : List String)
    (matrix : List ((String × String) × A)) (n : Nat) (l : String) (rest : List String)
    (hc : startsWithHash (pyStrip l) = false) (hsplit : pySplit (pyStrip l) = []) :
    loaderGo pf (some xs) matrix n (l :: rest) = .error (.unpackValueError n) := by
  rw [loaderGo.eq_def]
  simp only [hc, Bool.false_eq_true, if_false, hsplit]

/-- Loader loop on a data line with an unparsable score: the `float`
`ValueError`. -/
theorem loaderGo_cons_badfloat {A : Type} (pf : String → Option A) (xs : List String)
    (matrix : List ((String × String) × A)) (n : Nat) (l : String) (rest : List String)
    (y : String) (ss : List String)
    (hc : startsWithHash (pyStrip l) = false) (hsplit : pySplit (pyStrip l) = y :: ss)
    (hp : parseScores pf ss = none) :
    loaderGo pf (some xs) matrix n (l :: rest) = .error (.floatValueError n) := by
  rw [loaderGo.eq_def]
  simp only [hc, Bool.false_eq_true, if_false, hsplit, hp]

/-- Loader loop on a data line whose score count differs from the header's
column count: the explicit `ValueError` naming the line. -/
theorem loaderGo_cons_mismatch {A : Type} (pf : String → Option A) (xs : List String)
    (matrix : List ((String × String) × A)) (n : Nat) (l : String) (rest : List String)
    (y : String) (ss : List String) (scores : List A)
    (hc : startsWithHash (pyStrip l) = false) (hsplit : pySplit (pyStrip l) = y :: ss)
    (hp : parseScores pf ss = some scores) (hlen : scores.length ≠ xs.length) :
    loaderGo pf (some xs) matrix n (l :: rest)
      = .error (.countMismatch n scores.length xs.length) := by
  rw [loaderGo.eq_def]
  simp only [hc, Bool.false_eq_true, if_false, hsplit, hp, hlen, ne_eq]
  simp

/-- Loader loop on a good data line: insert the row's entries and continue. -/
theorem loaderGo_cons_row {A : Type} (pf : String → Option A) (xs : List String)
    (matrix : List ((String × String) × A)) (n : Nat) (l : String) (rest : List String)
    (y : String) (ss : List String) (scores : List A)
    (hc : startsWithHash (pyStrip l) = false) (hsplit : pySplit (pyStrip l) = y :: ss)
    (hp : parseScores pf ss = some scores) (hlen : scores.length = xs.length) :
    loaderGo pf (some xs) matrix n (l :: rest)
      = loaderGo pf (some xs) (insertRow matrix xs scores y) (n + 1) rest := by
  rw [loaderGo.eq_def]
  simp only [hc, Bool.false_eq_true, if_false, hsplit, hp, ne_eq, hlen]
  simp

/-- Spec-side row processing on a line with no fields. -/
theorem processRows_cons_unpack {A : Type} (pf : String → Option A) (xs : List String)
    (matrix : List ((String × String) × A)) (l : String) (rest : List String)
    (hsplit : pySplit l = []) :
    processRows pf xs matrix (l :: rest) = .error .badUnpack := by
  rw [processRows.eq_def]
  simp only [hsplit]

/-- Spec-side row processing on a line with an unparsable score. -/
theorem processRows_cons_badfloat {A : Type} (pf : String → Option A) (xs : List String)
    (matrix : List ((String × String) × A)) (l : String) (rest : List String)
    (y : String) (ss : List String)
    (hsplit : pySplit l = y :: ss) (hp : parseScores pf ss = none) :
    processRows pf xs matrix (l :: rest) = .error .badFloat := by
  rw [processRows.eq_def]
  simp only [hsplit, hp]

/-- Spec-side row processing on a line with a mismatched score count. -/
theorem processRows_cons_mismatch {A : Type} (pf : String → Option A) (xs : List String)
    (matrix : List ((String × String) × A)) (l : String) (rest : List String)
    (y : String) (ss : List String) (scores : List A)
    (hsplit : pySplit l = y :: ss) (hp : parseScores pf ss = some scores)
    (hlen : scores.length ≠ xs.length) :
    processRows pf xs matrix (l :: rest) = .error (.mismatch scores.length xs.length) := by
  rw [processRows.eq_def]
  simp only [hsplit, hp, hlen, ne_eq]
  simp

/-- Spec-side row processing on a good data line. -/
theorem processRows_cons_row {A : Type} (pf : String → Option A) (xs : List String)
    (matrix : List ((String × String) × A)) (l : String) (rest : List String)
    (y : String) (ss : List String) (scores : List A)
    (hsplit : pySplit l = y :: ss) (hp : parseScores pf ss = some scores)
    (hlen : scores.length = xs.length) :
    processRows pf xs matrix (l :: rest)
      = processRows pf xs (insertRow matrix xs scores y) rest := by
  rw [processRows.eq_def]
  simp only [hsplit, hp, ne_eq, hlen]
  simp

/-- Erasing line numbers from a run of the loader loop gives the spec-side
processing of the stripped non-comment lines: comment lines never contribute,
and before the header is seen the first remaining line only supplies the
column symbols. -/
theorem loaderGo_eraseLineNums {A : Type} (pf : String → Option A) :
    ∀ (lines : List String) (xBases : Option (List String))
      (matrix : List ((String × String) × A)) (n : Nat),
      eraseLineNums (loaderGo pf xBases matrix n lines) = goSpec pf xBases matrix lines := by
  intro lines
  induction lines with
  | nil =>
    intro xb matrix n
    cases xb with
    | none => rfl
    | some xs => rfl
  | cons l rest ih =>
    intro xb matrix n
    by_cases hc : startsWithHash (pyStrip l) = true
    · rw [loaderGo_cons_comment pf xb matrix n l rest hc, ih xb matrix (n + 1)]
      cases xb with
      | some xs =>
        show processRows pf xs matrix (effLines rest)
          = processRows pf xs matrix (effLines (l :: rest))
        rw [effLines_cons, if_pos hc]
      | none =>
        show (goSpec pf none matrix rest : Except SpecErr _) = goSpec pf none matrix (l :: rest)
        unfold goSpec
        rw [effLines_cons, if_pos hc]
    · rw [Bool.not_eq_true] at hc
      have heff : effLines (l :: rest) = pyStrip l :: effLines rest := by
        rw [effLines_cons, if_neg (by rw [hc]; exact Bool.false_ne_true)]
      cases xb with
      | none =>
        rw [loaderGo_cons_header pf matrix n l rest hc,
          ih (some (pySplit (pyStrip l))) matrix (n + 1)]
        show (processRows pf (pySplit (pyStrip l)) matrix (effLines rest) : Except SpecErr _)
          = goSpec pf none matrix (l :: rest)
        unfold goSpec
        rw [heff]
      | some xs =>
        show eraseLineNums (loaderGo pf (some xs) matrix n (l :: rest))
          = processRows pf xs matrix (effLines (l :: rest))
        rw [heff]
        cases hsplit : pySplit (pyStrip l) with
        | nil =>
          rw [loaderGo_cons_unpack pf xs matrix n l rest hc hsplit,
            processRows_cons_unpack pf xs matrix (pyStrip l) (effLines rest) hsplit]
          rfl
        | cons y toks =>
          cases hparse : parseScores pf toks with
          | none =>
            rw [loaderGo_cons_badfloat pf xs matrix n l rest y toks hc hsplit hparse,
              processRows_cons_badfloat pf xs matrix (pyStrip l) (effLines rest) y toks hsplit hparse]
            rfl
          | some scores =>
            by_cases hlen : scores.length = xs.length
            · rw [loaderGo_cons_row pf xs matrix n l rest y toks scores hc hsplit hparse hlen,
                processRows_cons_row pf xs matrix (pyStrip l) (effLines rest) y toks scores
                  hsplit hparse hlen]
              exact ih (some xs) (insertRow matrix xs scores y) (n + 1)
            · rw [loaderGo_cons_mismatch pf xs matrix n l rest y toks scores hc hsplit
                  hparse hlen,
                processRows_cons_mismatch pf xs matrix (pyStrip l) (effLines rest) y toks scores
                  hsplit hparse hlen]
              rfl

/-- C5: the loader ignores every comment line starting with `#`, takes the
first non-comment line as the ordered list of column symbols, and produces
entries only from the subsequent non-comment lines: up to error line numbers,
running `substitution_matrix_loader` on the raw file equals the spec-side
processing `spec_matrix_entries`, which drops comment lines, reads the header
from the first remaining line, and builds the mapping (starting empty) from
the remaining data rows alone. -/
theorem C5_comments_and_header_ignored {A : Type} (pf : String → Option A)
    (lines : List String) :
    eraseLineNums (substitution_matrix_loader pf lines) = spec_matrix_entries pf lines := by
  rw [substitution_matrix_loader, loaderGo_eraseLineNums pf lines none [] 1]
  unfold goSpec spec_matrix_entries
  cases effLines lines with
  | nil => rfl
  | cons hdr rows => rfl

/-- Erasing line numbers is faithful on successful results. -/
theorem eraseLineNums_ok {A : Type} (e : Except LoadError A) (v : A) :
    eraseLineNums e = .ok v ↔ e = .ok v := by
  cases e with
  | ok w => simp [eraseLineNums]
  | error err => cases err <;> simp [eraseLineNums]

/-- Assigning a fresh key appends its binding. -/
theorem dictInsert_fresh {κ : Type} [DecidableEq κ] {A : Type} (d : List (κ × A)) (k : κ)
    (v : A) (h : k ∉ d.map Prod.fst) : dictInsert d k v = d ++ [(k, v)] := by
  rw [dictInsert, if_neg]
  intro hc
  obtain ⟨p, hp, hpk⟩ := List.any_eq_true.mp hc
  rw [decide_eq_true_eq] at hpk
  exact h (hpk ▸ List.mem_map_of_mem Prod.fst hp)

/-- Folding assignments of fresh, mutually distinct keys appends them all in
order. -/
theorem foldl_dictInsert_append {κ : Type} [DecidableEq κ] {A : Type} :
    ∀ (ps : List (κ × A)) (d : List (κ × A)),
      (∀ p ∈ ps, p.1 ∉ d.map Prod.fst) → (ps.map Prod.fst).Nodup →
      ps.foldl (fun m q => dictInsert m q.1 q.2) d = d ++ ps := by
  intro ps
  induction ps with
  | nil =>
    intro d _ _
    simp
  | cons p ps ih =>
    intro d hfresh hnd
    rw [List.foldl_cons, dictInsert_fresh d p.1 p.2 (hfresh p (List.mem_cons_self p ps))]
    rw [List.map_cons] at hnd
    have hnd' := List.nodup_cons.mp hnd
    have hfresh' : ∀ q ∈ ps, q.1 ∉ (d ++ [p]).map Prod.fst := by
      intro q hq
      rw [List.map_append, List.mem_append]
      rintro (h | h)
      · exact hfresh q (List.mem_cons_of_mem p hq) h
      · rw [List.map_singleton, List.mem_singleton] at h
        exact hnd'.1 (by rw [← h]; exact List.mem_map_of_mem Prod.fst hq)
    rw [ih (d ++ [p]) hfresh' hnd'.2]
    simp

/-- Inserting one row whose symbol is fresh for the matrix appends that row's
block of entries. -/
theorem insertRow_append {A : Type} (matrix : List ((String × String) × A))
    (xs : List String) (scores : List A) (y : String)
    (hfresh : ∀ k ∈ matrix.map Prod.fst, k.2 ≠ y) (hnd : xs.Nodup)
    (hlen : scores.length = xs.length) :
    insertRow matrix xs scores y = matrix ++ rowBlock xs (y, scores) := by
  have hfold : insertRow matrix xs scores y
      = (rowBlock xs (y, scores)).foldl (fun m q => dictInsert m q.1 q.2) matrix := by
    rw [insertRow, rowBlock, List.foldl_map]
  have hkeys : (rowBlock xs (y, scores)).map Prod.fst = xs.map (fun x => (x, y)) := by
    rw [rowBlock, List.map_map]
    have hcomp : (Prod.fst ∘ fun p : String × A => ((p.1, (y, scores).1), p.2))
        = (fun x => (x, y)) ∘ Prod.fst := rfl
    rw [hcomp, ← List.map_map, List.map_fst_zip xs scores (le_of_eq hlen.symm)]
  rw [hfold]
  refine foldl_dictInsert_append _ matrix ?_ ?_
  · intro p hp
    rw [rowBlock] at hp
    obtain ⟨q, _, rfl⟩ := List.mem_map.mp hp
    intro hmem
    exact hfresh (q.1, y) hmem rfl
  · rw [hkeys]
    exact hnd.map (fun a b h => (Prod.mk.inj h).1)

/-- Every row related by the well-formedness relation has one score per
column. -/
theorem forall₂_rows_length {A : Type} {pf : String → Option A} {xs : List String} :
    ∀ {dataLines : List String} {rows : List (String × List A)},
      List.Forall₂ (fun l r => ∃ toks, pySplit l = r.1 :: toks ∧
        parseScores pf toks = some r.2 ∧ r.2.length = xs.length) dataLines rows →
      ∀ r ∈ rows, r.2.length = xs.length := by
  intro dataLines rows h
  induction h with
  | nil =>
    intro r hr
    cases hr
  | cons hr _ ihtail =>
    intro r hmem
    rcases List.mem_cons.mp hmem with rfl | hmem'
    · obtain ⟨_, _, _, hl⟩ := hr
      exact hl
    · exact ihtail r hmem'

/-- Spec-side processing of well-formed rows extends the matrix by each row's
block of entries in order, provided the column symbols and the row symbols are
distinct and the accumulated keys avoid the upcoming row symbols. -/
theorem processRows_ok {A : Type} (pf : String → Option A) (xs : List String)
    (hxs : xs.Nodup) :
    ∀ (dataLines : List String) (rows : List (String × List A))
      (matrix : List ((String × String) × A)),
      List.Forall₂ (fun l r => ∃ toks, pySplit l = r.1 :: toks ∧
        parseScores pf toks = some r.2 ∧ r.2.length = xs.length) dataLines rows →
      (rows.map Prod.fst).Nodup →
      (∀ k ∈ matrix.map Prod.fst, k.2 ∉ rows.map Prod.fst) →
      processRows pf xs matrix dataLines = .ok (matrix ++ rows.flatMap (rowBlock xs)) := by
  intro dataLines
  induction dataLines with
  | nil =>
    intro rows matrix hrel _ _
    cases hrel
    simp [processRows]
  | cons l ls ih =>
    intro rows matrix hrel hnd hfresh
    cases rows with
    | nil => cases hrel
    | cons r rs =>
      rw [List.forall₂_cons] at hrel
      obtain ⟨⟨toks, hsplit, hparse, hlen⟩, hrel'⟩ := hrel
      rw [processRows_cons_row pf xs matrix l ls r.1 toks r.2 hsplit hparse hlen]
      have hfresh1 : ∀ k ∈ matrix.map Prod.fst, k.2 ≠ r.1 := by
        intro k hk
        have hmem := hfresh k hk
        rw [List.map_cons, List.mem_cons] at hmem
        exact fun h => hmem (Or.inl h)
      rw [show insertRow matrix xs r.2 r.1 = matrix ++ rowBlock xs r from
        insertRow_append matrix xs r.2 r.1 hfresh1 hxs hlen]
      rw [List.map_cons] at hnd
      have hnd' := List.nodup_cons.mp hnd
      have hfresh2 : ∀ k ∈ (matrix ++ rowBlock xs r).map Prod.fst,
          k.2 ∉ rs.map Prod.fst := by
        intro k hk
        rw [List.map_append, List.mem_append] at hk
        rcases hk with hk | hk
        · have hmem := hfresh k hk
          rw [List.map_cons, List.mem_cons] at hmem
          exact fun h => hmem (Or.inr h)
        · obtain ⟨q, hq, rfl⟩ := List.mem_map.mp hk
          rw [rowBlock] at hq
          obtain ⟨w, _, rfl⟩ := List.mem_map.mp hq
          exact hnd'.1
      rw [ih rs (matrix ++ rowBlock xs r) hrel' hnd'.2 hfresh2]
      rw [List.flatMap_cons, List.append_assoc]

/-- The number of entries contributed by well-sized rows: one per column per
row. -/
theorem flatMap_rowBlock_length {A : Type} (xs : List String) :
    ∀ (rows : List (String × List A)), (∀ r ∈ rows, r.2.length = xs.length) →
      (rows.flatMap (rowBlock xs)).length = xs.length * rows.length := by
  intro rows
  induction rows with
  | nil =>
    intro _
    simp
  | cons r rs ih =>
    intro h
    rw [List.flatMap_cons, List.length_append,
      ih (fun q hq => h q (List.mem_cons_of_mem r hq))]
    have hone : (rowBlock xs r).length = xs.length := by
      rw [rowBlock, List.length_map, List.length_zip, h r (List.mem_cons_self r rs),
        min_self]
    rw [hone, List.length_cons]
    ring

/-- C2: a well-formed matrix file with a header of N column symbols and M data
rows loads into a mapping with exactly N * M entries. Well-formedness: after
stripping and dropping comments the file is a header followed by the data
rows; every data row is a row symbol followed by scores that all parse, one
per column; the column symbols are distinct and so are the row symbols. -/
theorem C2_loader_entry_count {A : Type} (pf : String → Option A) (lines : List String)
    (hdrT : String) (dataLines : List String) (rows : List (String × List A)) (N M : Nat)
    (heff : effLines lines = hdrT :: dataLines)
    (hN : (pySplit hdrT).length = N) (hM : dataLines.length = M)
    (hrel : List.Forall₂ (fun l r => ∃ toks, pySplit l = r.1 :: toks ∧
      parseScores pf toks = some r.2 ∧ r.2.length = (pySplit hdrT).length) dataLines rows)
    (hxs : (pySplit hdrT).Nodup) (hys : (rows.map Prod.fst).Nodup) :
    ∃ m, substitution_matrix_loader pf lines = .ok m ∧ m.length = N * M := by
  have hpr := processRows_ok pf (pySplit hdrT) hxs dataLines rows [] hrel hys
    (by intro k hk; cases hk)
  have hg : goSpec pf none ([] : List ((String × String) × A)) lines
      = processRows pf (pySplit hdrT) [] dataLines := by
    unfold goSpec
    rw [heff]
  have hok : substitution_matrix_loader pf lines
      = .ok (rows.flatMap (rowBlock (pySplit hdrT))) := by
    rw [← eraseLineNums_ok, substitution_matrix_loader,
      loaderGo_eraseLineNums pf lines none [] 1, hg, hpr, List.nil_append]
  refine ⟨_, hok, ?_⟩
  rw [flatMap_rowBlock_length (pySplit hdrT) rows (forall₂_rows_length hrel), hN,
    ← hrel.length_eq, hM]

/-- C2 witness: a 2-column, 2-row file with a comment line, scores parsed by a
small lookup table standing for `float`. -/
theorem C2_loader_entry_count_witness :
    effLines ["# sub matrix", "A C", "A 1 2", "C 3 4"] = "A C" :: ["A 1 2", "C 3 4"] ∧
    ∃ m, substitution_matrix_loader
        (fun s => if s = "1" then some 1 else if s = "2" then some 2
          else if s = "3" then some 3 else if s = "4" then some (4 : Nat) else none)
        ["# sub matrix", "A C", "A 1 2", "C 3 4"] = .ok m ∧ m.length = 2 * 2 := by
  have heff : effLines ["# sub matrix", "A C", "A 1 2", "C 3 4"]
      = "A C" :: ["A 1 2", "C 3 4"] := by decide
  refine ⟨heff, ?_⟩
  refine C2_loader_entry_count _ _ ("A C") ["A 1 2", "C 3 4"]
    [("A", [1, 2]), ("C", [3, 4])] 2 2 heff (by decide) rfl ?_ (by decide) (by decide)
  refine List.Forall₂.cons ⟨["1", "2"], by decide, by decide, by decide⟩ ?_
  exact List.Forall₂.cons ⟨["3", "4"], by decide, by decide, by decide⟩ List.Forall₂.nil

/-- A lookup whose row symbol differs from a row's symbol misses that row's
block entirely. -/
theorem rowBlock_find?_ne {A : Type} (xs : List String) (r : String × List A)
    (x y : String) (hne : y ≠ r.1) :
    (rowBlock xs r).find? (fun p => decide (p.1 = (x, y))) = none := by
  rw [List.find?_eq_none]
  intro p hp
  rw [rowBlock] at hp
  obtain ⟨q, _, rfl⟩ := List.mem_map.mp hp
  simp only [decide_eq_true_eq]
  intro h
  exact hne (Prod.mk.inj h).2.symm

/-- Looking up the i-th column symbol in a row's block finds the i-th score. -/
theorem rowBlock_find? {A : Type} :
    ∀ (xs : List String) (svs : List A) (y : String) (i : Nat) (x : String) (s : A),
      xs.Nodup → svs.length = xs.length → xs[i]? = some x → svs[i]? = some s →
      (rowBlock xs (y, svs)).find? (fun p => decide (p.1 = (x, y)))
        = some ((x, y), s) := by
  intro xs
  induction xs with
  | nil =>
    intro svs y i x s _ _ hx _
    simp at hx
  | cons x0 xs ih =>
    intro svs y i x s hnd hlen hx hs
    cases svs with
    | nil => simp at hlen
    | cons s0 svs =>
      rw [rowBlock, List.zip_cons_cons, List.map_cons]
      cases i with
      | zero =>
        rw [List.getElem?_cons_zero] at hx hs
        cases hx
        cases hs
        rw [List.find?_cons_of_pos _ (by simp)]
      | succ i =>
        rw [List.getElem?_cons_succ] at hx hs
        have hnd' := List.nodup_cons.mp hnd
        have hxmem : x ∈ xs := List.getElem?_mem hx
        have hne : x0 ≠ x := fun h => hnd'.1 (h ▸ hxmem)
        rw [List.find?_cons_of_neg _ (by
          simp only [decide_eq_true_eq]
          intro h
          exact hne (Prod.mk.inj h).1)]
        have hlen' : svs.length = xs.length := by
          rw [List.length_cons, List.length_cons] at hlen
          omega
        have := ih svs y i x s hnd'.2 hlen' hx hs
        rw [rowBlock] at this
        exact this

/-- Looking up `(i-th column symbol, j-th row symbol)` in the assembled matrix
finds the i-th score of the j-th row. -/
theorem flatMap_rowBlock_dictGet {A : Type} (xs : List String) (hxs : xs.Nodup) :
    ∀ (rows : List (String × List A)), (rows.map Prod.fst).Nodup →
      (∀ r ∈ rows, r.2.length = xs.length) →
      ∀ (j : Nat) (y : String) (svs : List A), rows[j]? = some (y, svs) →
      ∀ (i : Nat) (x : String) (s : A), xs[i]? = some x → svs[i]? = some s →
      dictGet (rows.flatMap (rowBlock xs)) (x, y) = some s := by
  intro rows
  induction rows with
  | nil =>
    intro _ _ j y svs hj
    simp at hj
  | cons r rs ih =>
    intro hnd hlens j y svs hj i x s hx hs
    rw [List.flatMap_cons, dictGet, List.find?_append]
    cases j with
    | zero =>
      rw [List.getElem?_cons_zero] at hj
      obtain rfl : r = (y, svs) := Option.some.inj hj
      rw [rowBlock_find? xs svs y i x s hxs
        (hlens (y, svs) (List.mem_cons_self _ _)) hx hs]
      rfl
    | succ j =>
      rw [List.getElem?_cons_succ] at hj
      have hmem : (y, svs) ∈ rs := List.getElem?_mem hj
      rw [List.map_cons] at hnd
      have hnd' := List.nodup_cons.mp hnd
      have hne : y ≠ r.1 := by
        intro h
        exact hnd'.1 (h ▸ List.mem_map_of_mem Prod.fst hmem)
      rw [rowBlock_find?_ne xs r x y hne]
      have htail := ih hnd'.2 (fun q hq => hlens q (List.mem_cons_of_mem r hq))
        j y svs hj i x s hx hs
      rw [dictGet] at htail
      rw [Option.none_or]
      exact htail

/-- C4: for a well-formed matrix file, the loaded mapping sends the key
`(column symbol, row symbol)` — column symbol first — to the corresponding
score: if `x` is the i-th header symbol, `(y, svs)` the j-th data row with its
parsed scores, and `s` the i-th of those scores, the mapping holds `(x, y) ↦ s`.
Well-formedness is as in the N×M entry-count theorem. -/
theorem C4_loader_key_orientation {A : Type} (pf : String → Option A) (lines : List String)
    (hdrT : String) (dataLines : List String) (rows : List (String × List A))
    (heff : effLines lines = hdrT :: dataLines)
    (hrel : List.Forall₂ (fun l r => ∃ toks, pySplit l = r.1 :: toks ∧
      parseScores pf toks = some r.2 ∧ r.2.length = (pySplit hdrT).length) dataLines rows)
    (hxs : (pySplit hdrT).Nodup) (hys : (rows.map Prod.fst).Nodup) :
    ∃ m, substitution_matrix_loader pf lines = .ok m ∧
      ∀ (i j : Nat) (x y : String) (svs : List A) (s : A),
        (pySplit hdrT)[i]? = some x → rows[j]? = some (y, svs) → svs[i]? = some s →
        dictGet m (x, y) = some s := by
  have hpr := processRows_ok pf (pySplit hdrT) hxs dataLines rows [] hrel hys
    (by intro k hk; cases hk)
  have hg : goSpec pf none ([] : List ((String × String) × A)) lines
      = processRows pf (pySplit hdrT) [] dataLines := by
    unfold goSpec
    rw [heff]
  have hok : substitution_matrix_loader pf lines
      = .ok (rows.flatMap (rowBlock (pySplit hdrT))) := by
    rw [← eraseLineNums_ok, substitution_matrix_loader,
      loaderGo_eraseLineNums pf lines none [] 1, hg, hpr, List.nil_append]
  refine ⟨_, hok, ?_⟩
  intro i j x y svs s hx hj hs
  exact flatMap_rowBlock_dictGet (pySplit hdrT) hxs rows hys
    (forall₂_rows_length hrel) j y svs hj i x s hx hs

/-- C4 witness: in the loaded 2×2 file, the entry for column `C`, row `A` is
the second score of the `A` row. -/
theorem C4_loader_key_orientation_witness :
    effLines ["# sub matrix", "A C", "A 1 2", "C 3 4"] = "A C" :: ["A 1 2", "C 3 4"] ∧
    ∃ m, substitution_matrix_loader
        (fun s => if s = "1" then some 1 else if s = "2" then some 2
          else if s = "3" then some 3 else if s = "4" then some (4 : Nat) else none)
        ["# sub matrix", "A C", "A 1 2", "C 3 4"] = .ok m ∧
      dictGet m ("C", "A") = some 2 := by
  have heff : effLines ["# sub matrix", "A C", "A 1 2", "C 3 4"]
      = "A C" :: ["A 1 2", "C 3 4"] := by decide
  refine ⟨heff, ?_⟩
  obtain ⟨m, hld, hmap⟩ := C4_loader_key_orientation
    (fun s => if s = "1" then some 1 else if s = "2" then some 2
      else if s = "3" then some 3 else if s = "4" then some (4 : Nat) else none)
    ["# sub matrix", "A C", "A 1 2", "C 3 4"] ("A C") ["A 1 2", "C 3 4"]
    [("A", [1, 2]), ("C", [3, 4])] heff
    (List.Forall₂.cons ⟨["1", "2"], by decide, by decide, by decide⟩
      (List.Forall₂.cons ⟨["3", "4"], by decide, by decide, by decide⟩ List.Forall₂.nil))
    (by decide) (by decide)
  exact ⟨m, hld, hmap 1 0 ("C") ("A") [1, 2] 2 (by decide) (by decide) (by decide)⟩

/-- Spec-side processing succeeds whenever every row unpacks, parses, and has
one score per column. -/
theorem processRows_no_mismatch {A : Type} (pf : String → Option A) (xs : List String) :
    ∀ (dls : List String) (matrix : List ((String × String) × A)),
      (∀ l ∈ dls, ∃ y toks vs, pySplit l = y :: toks ∧
        parseScores pf toks = some vs ∧ toks.length = xs.length) →
      ∃ m, processRows pf xs matrix dls = .ok m := by
  intro dls
  induction dls with
  | nil =>
    intro matrix _
    exact ⟨matrix, rfl⟩
  | cons l ls ih =>
    intro matrix h
    obtain ⟨y, toks, vs, hsplit, hparse, hlen⟩ := h l (List.mem_cons_self l ls)
    have hvs : vs.length = xs.length := by
      rw [parseScores_length pf toks vs hparse]
      exact hlen
    rw [processRows_cons_row pf xs matrix l ls y toks vs hsplit hparse hvs]
    exact ih _ (fun q hq => h q (List.mem_cons_of_mem l hq))

/-- Before the header is seen, the loader either exhausts the file (all
comments) or skips the leading comments, consumes the first non-comment line
as the header, and continues on the remaining lines with the line number
advanced past the consumed prefix. -/
theorem loaderGo_none_decomp {A : Type} (pf : String → Option A) :
    ∀ (lines : List String) (n : Nat) (matrix : List ((String × String) × A)),
      (effLines lines = [] ∧ loaderGo pf none matrix n lines = .ok matrix) ∨
      (∃ pre hdr rest, lines = pre ++ hdr :: rest ∧
        effLines lines = pyStrip hdr :: effLines rest ∧
        startsWithHash (pyStrip hdr) = false ∧
        loaderGo pf none matrix n lines
          = loaderGo pf (some (pySplit (pyStrip hdr))) matrix (n + pre.length + 1) rest) := by
  intro lines
  induction lines with
  | nil =>
    intro n matrix
    exact Or.inl ⟨rfl, rfl⟩
  | cons l rest ih =>
    intro n matrix
    by_cases hc : startsWithHash (pyStrip l) = true
    · rcases ih (n + 1) matrix with ⟨he, hgo⟩ | ⟨pre, hdr, rest', hsp, heffr, hh, hgo⟩
      · refine Or.inl ⟨?_, ?_⟩
        · rw [effLines_cons, if_pos hc]
          exact he
        · rw [loaderGo_cons_comment pf none matrix n l rest hc]
          exact hgo
      · refine Or.inr ⟨l :: pre, hdr, rest', ?_, ?_, hh, ?_⟩
        · rw [hsp]
          rfl
        · rw [effLines_cons, if_pos hc]
          exact heffr
        · rw [loaderGo_cons_comment pf none matrix n l rest hc, hgo,
            show n + 1 + pre.length + 1 = n + (l :: pre).length + 1 by
              rw [List.length_cons]; omega]
    · rw [Bool.not_eq_true] at hc
      refine Or.inr ⟨[], l, rest, rfl, ?_, hc, ?_⟩
      · rw [effLines_cons, if_neg (by rw [hc]; exact Bool.false_ne_true)]
      · rw [loaderGo_cons_header pf matrix n l rest hc]
        rfl

/-- If every data row unpacks and parses but some row's score count differs
from the header's column count, the loader raises the explicit `ValueError`
carrying the header's count, a mismatching score count, and the 1-based number
of an offending (non-comment) line. -/
theorem loaderGo_mismatch_error {A : Type} (pf : String → Option A) (xs : List String) :
    ∀ (lines : List String) (n : Nat) (matrix : List ((String × String) × A)),
      (∀ l ∈ effLines lines, ∃ y toks vs, pySplit l = y :: toks ∧
        parseScores pf toks = some vs) →
      (∃ l ∈ effLines lines, ((pySplit l).tail).length ≠ xs.length) →
      ∃ k a, loaderGo pf (some xs) matrix n lines
          = .error (.countMismatch k a xs.length) ∧ a ≠ xs.length ∧
        ∃ i raw, lines[i]? = some raw ∧ k = n + i ∧
          startsWithHash (pyStrip raw) = false ∧
          ((pySplit (pyStrip raw)).tail).length = a := by
  intro lines
  induction lines with
  | nil =>
    intro n matrix _ hex
    simp [effLines] at hex
  | cons l rest ih =>
    intro n matrix hall hex
    by_cases hc : startsWithHash (pyStrip l) = true
    · have heff : effLines (l :: rest) = effLines rest := by
        rw [effLines_cons, if_pos hc]
      rw [heff] at hall hex
      obtain ⟨k, a, hgo, hane, i, raw, hraw, hk, hrh, hlen⟩ := ih (n + 1) matrix hall hex
      refine ⟨k, a, ?_, hane, i + 1, raw, ?_, ?_, hrh, hlen⟩
      · rw [loaderGo_cons_comment pf (some xs) matrix n l rest hc]
        exact hgo
      · rw [List.getElem?_cons_succ]
        exact hraw
      · omega
    · rw [Bool.not_eq_true] at hc
      have heff : effLines (l :: rest) = pyStrip l :: effLines rest := by
        rw [effLines_cons, if_neg (by rw [hc]; exact Bool.false_ne_true)]
      obtain ⟨y, toks, vs, hsplit, hparse⟩ :=
        hall (pyStrip l) (by rw [heff]; exact List.mem_cons_self _ _)
      rw [heff] at hall hex
      by_cases hmis : toks.length = xs.length
      · have hvs : vs.length = xs.length := by
          rw [parseScores_length pf toks vs hparse]
          exact hmis
        have hex' : ∃ l' ∈ effLines rest,
            ((pySplit l').tail).length ≠ xs.length := by
          rcases hex with ⟨l', hl', hnel⟩
          rcases List.mem_cons.mp hl' with rfl | hmem
          · exact absurd (by rw [hsplit]; exact hmis) hnel
          · exact ⟨l', hmem, hnel⟩
        obtain ⟨k, a, hgo, hane, i, raw, hraw, hk, hrh, hlen⟩ :=
          ih (n + 1) (insertRow matrix xs vs y)
            (fun q hq => hall q (List.mem_cons_of_mem _ hq)) hex'
        refine ⟨k, a, ?_, hane, i + 1, raw, ?_, ?_, hrh, hlen⟩
        · rw [loaderGo_cons_row pf xs matrix n l rest y toks vs hc hsplit hparse hvs]
          exact hgo
        · rw [List.getElem?_cons_succ]
          exact hraw
        · omega
      · have hvs : vs.length ≠ xs.length := by
          rw [parseScores_length pf toks vs hparse]
          exact hmis
        refine ⟨n, vs.length, ?_, hvs, 0, l, ?_, ?_, hc, ?_⟩
        · exact loaderGo_cons_mismatch pf xs matrix n l rest y toks vs hc hsplit hparse hvs
        · rw [List.getElem?_cons_zero]
        · omega
        · rw [hsplit, parseScores_length pf toks vs hparse]
          rfl

/-- C3: provided every data row has at least one field and all its scores
parse, the loader raises its explicit count-mismatch `ValueError` exactly when
some data row's score count differs from the header's column count; and
whenever that error is raised it names an offending line: the reported line
number points at a non-comment line of the file whose score count is the
reported mismatching count, and the reported base count is the header's. -/
theorem C3_mismatch_error_iff {A : Type} (pf : String → Option A) (lines : List String)
    (hdrT : String) (dataLines : List String)
    (heff : effLines lines = hdrT :: dataLines)
    (hrows : ∀ l ∈ dataLines, ∃ y toks vs, pySplit l = y :: toks ∧
      parseScores pf toks = some vs) :
    ((∃ l ∈ dataLines, ((pySplit l).tail).length ≠ (pySplit hdrT).length) ↔
      ∃ k a b, substitution_matrix_loader pf lines = .error (.countMismatch k a b)) ∧
    (∀ k a b, substitution_matrix_loader pf lines = .error (.countMismatch k a b) →
      b = (pySplit hdrT).length ∧ a ≠ b ∧
      ∃ raw, lines[k - 1]? = some raw ∧ startsWithHash (pyStrip raw) = false ∧
        ((pySplit (pyStrip raw)).tail).length = a) := by
  rcases loaderGo_none_decomp pf lines 1 [] with ⟨he, _⟩ | ⟨pre, hdr, rest, hsp, heq, _, hgo⟩
  · rw [heff] at he
    exact absurd he (by simp)
  · rw [heff] at heq
    obtain ⟨hhdr, hdata⟩ := List.cons.inj heq
    subst hhdr
    subst hdata
    have hldr : substitution_matrix_loader pf lines
        = loaderGo pf (some (pySplit (pyStrip hdr))) [] (1 + pre.length + 1) rest := by
      rw [substitution_matrix_loader]
      exact hgo
    have hfwd : (∃ l ∈ effLines rest,
        ((pySplit l).tail).length ≠ (pySplit (pyStrip hdr)).length) →
        ∃ k a, substitution_matrix_loader pf lines
            = .error (.countMismatch k a (pySplit (pyStrip hdr)).length) ∧
          a ≠ (pySplit (pyStrip hdr)).length ∧
          ∃ raw, lines[k - 1]? = some raw ∧ startsWithHash (pyStrip raw) = false ∧
            ((pySplit (pyStrip raw)).tail).length = a := by
      intro hex
      obtain ⟨k, a, hgoerr, hane, i, raw, hraw, hk, hrh, hlen⟩ :=
        loaderGo_mismatch_error pf (pySplit (pyStrip hdr)) rest (1 + pre.length + 1) []
          hrows hex
      refine ⟨k, a, by rw [hldr]; exact hgoerr, hane, raw, ?_, hrh, hlen⟩
      rw [hsp, show k - 1 = pre.length + (i + 1) by omega,
        List.getElem?_append_right (by omega),
        show pre.length + (i + 1) - pre.length = i + 1 by omega,
        List.getElem?_cons_succ]
      exact hraw
    have hbwd : (∃ k a b, substitution_matrix_loader pf lines
        = .error (.countMismatch k a b)) →
        ∃ l ∈ effLines rest,
          ((pySplit l).tail).length ≠ (pySplit (pyStrip hdr)).length := by
      rintro ⟨k, a, b, herr⟩
      by_contra hno
      push_neg at hno
      have hall : ∀ l ∈ effLines rest, ∃ y toks vs, pySplit l = y :: toks ∧
          parseScores pf toks = some vs ∧
          toks.length = (pySplit (pyStrip hdr)).length := by
        intro l hl
        obtain ⟨y, toks, vs, h1, h2⟩ := hrows l hl
        refine ⟨y, toks, vs, h1, h2, ?_⟩
        have h3 := hno l hl
        rw [h1] at h3
        exact h3
      obtain ⟨m, hm⟩ := processRows_no_mismatch pf (pySplit (pyStrip hdr))
        (effLines rest) [] hall
      have hok : substitution_matrix_loader pf lines = .ok m := by
        rw [← eraseLineNums_ok, substitution_matrix_loader,
          loaderGo_eraseLineNums pf lines none [] 1]
        have hg : goSpec pf none ([] : List ((String × String) × A)) lines
            = processRows pf (pySplit (pyStrip hdr)) [] (effLines rest) := by
          unfold goSpec
          rw [heff]
        rw [hg, hm]
      rw [herr] at hok
      exact Except.noConfusion hok
    refine ⟨⟨fun hex => ?_, hbwd⟩, ?_⟩
    · obtain ⟨k, a, herr, _⟩ := hfwd hex
      exact ⟨k, a, _, herr⟩
    · intro k a b herr
      obtain ⟨k', a', herr', hane', raw, hraw, hrh, hlen⟩ := hfwd (hbwd ⟨k, a, b, herr⟩)
      have heq2 := Except.error.inj (herr.symm.trans herr')
      rw [LoadError.countMismatch.injEq] at heq2
      obtain ⟨rfl, rfl, rfl⟩ := heq2
      exact ⟨rfl, hane', raw, hraw, hrh, hlen⟩

/-- C3 witness: a file whose `C` row has one score under a two-column header;
the loader reports the mismatch on line 4. -/
theorem C3_mismatch_error_iff_witness :
    effLines ["# c", "A C", "A 1 2", "C 3"] = "A C" :: ["A 1 2", "C 3"] ∧
    (((∃ l ∈ ["A 1 2", "C 3"],
        ((pySplit l).tail).length ≠ (pySplit ("A C")).length) ↔
      ∃ k a b, substitution_matrix_loader
          (fun s => if s = "1" then some 1 else if s = "2" then some 2
            else if s = "3" then some (3 : Nat) else none)
          ["# c", "A C", "A 1 2", "C 3"] = .error (.countMismatch k a b)) ∧
    (∀ k a b, substitution_matrix_loader
          (fun s => if s = "1" then some 1 else if s = "2" then some 2
            else if s = "3" then some (3 : Nat) else none)
          ["# c", "A C", "A 1 2", "C 3"] = .error (.countMismatch k a b) →
      b = (pySplit ("A C")).length ∧ a ≠ b ∧
      ∃ raw, ["# c", "A C", "A 1 2", "C 3"][k - 1]? = some raw ∧
        startsWithHash (pyStrip raw) = false ∧
        ((pySplit (pyStrip raw)).tail).length = a)) := by
  have hrows : ∀ l ∈ ["A 1 2", "C 3"], ∃ y toks vs, pySplit l = y :: toks ∧
      parseScores (fun s => if s = "1" then some 1 else if s = "2" then some 2
        else if s = "3" then some (3 : Nat) else none) toks = some vs := by
    intro l hl
    rcases List.mem_cons.mp hl with rfl | hl'
    · exact ⟨"A", ["1", "2"], [1, 2], by decide, by decide⟩
    · rcases List.mem_cons.mp hl' with rfl | hl''
      · exact ⟨"C", ["3"], [3], by decide, by decide⟩
      · cases hl''
  exact ⟨by decide,
    C3_mismatch_error_iff
      (fun s => if s = "1" then some 1 else if s = "2" then some 2
        else if s = "3" then some (3 : Nat) else none)
      ["# c", "A C", "A 1 2", "C 3"] ("A C") ["A 1 2", "C 3"] (by decide) hrows⟩

end Common
